import Mathlib

/-
  Verification of the EnglishWordsT vocabulary spelling-quiz trainer.

  Shallow embedding of the program's core, translated from the TypeScript
  sources:
    - src/types.ts                      (data model)
    - src/components/QuizScreen.tsx     (quiz session state machine,
                                         ResultScreen summary reducer,
                                         SelectionScreen handleStart)
    - src/utils/speech.ts               (speakWord voice selection / pitch)

  JavaScript strings are modelled as Lean `String`; the string operations
  (`trim`, `toLowerCase`, `includes`, the `[^a-zA-Z]` regex) are embedded
  over the code points the program actually manipulates (the quiz data and
  keyboard/dictation input are ASCII; `Char.toLower` agrees with
  `String.prototype.toLowerCase` on that range).  JavaScript numbers that
  can be NaN are modelled with an explicit `nan` constructor.
-/

namespace EWT

/- Section: Data model (src/types.ts) -/

/-- The `VocabWord` record from src/types.ts. -/
structure VocabWord where
  id : String
  team : String
  lesson : String
  english : String
  chinese : String
deriving DecidableEq

/-- The `QuizResult` record from src/types.ts. -/
structure QuizResult where
  word : VocabWord
  userAnswer : String
  isCorrect : Bool
deriving DecidableEq

/- Section: JavaScript string primitives -/

/-- The WhiteSpace / LineTerminator code points removed by
`String.prototype.trim` (ECMA-262). -/
def jsIsWhitespace (c : Char) : Bool :=
  c.toNat == 0x09 || c.toNat == 0x0A || c.toNat == 0x0B || c.toNat == 0x0C ||
  c.toNat == 0x0D || c.toNat == 0x20 || c.toNat == 0xA0 || c.toNat == 0x1680 ||
  (0x2000 ≤ c.toNat && c.toNat ≤ 0x200A) || c.toNat == 0x2028 ||
  c.toNat == 0x2029 || c.toNat == 0x202F || c.toNat == 0x205F ||
  c.toNat == 0x3000 || c.toNat == 0xFEFF

/-- Model of `s.trim()`: strip leading and trailing whitespace. -/
def jsTrim (s : String) : String :=
  String.mk (((s.data.dropWhile jsIsWhitespace).reverse.dropWhile jsIsWhitespace).reverse)

/-- Model of `s.toLowerCase()` on the ASCII range (`Char.toLower` lowercases exactly
the characters `A`-`Z`, as `toLowerCase` does on that range). -/
def jsToLower (s : String) : String :=
  String.mk (s.data.map Char.toLower)

/-- Whether `needle` is a prefix of `hay`, on character lists. -/
def charsIsPrefixOf : List Char → List Char → Bool
  | [], _ => true
  | _ :: _, [] => false
  | a :: as, b :: bs => a == b && charsIsPrefixOf as bs

/-- Substring occurrence on character lists. -/
def charsContains : List Char → List Char → Bool
  | [], needle => needle.isEmpty
  | h :: t, needle => charsIsPrefixOf needle (h :: t) || charsContains t needle

/-- Model of `hay.includes(needle)` (ECMA-262 `String.prototype.includes`). -/
def strIncludes (hay needle : String) : Bool :=
  charsContains hay.data needle.data

/-- The normalization applied by `handleSubmit`
(QuizScreen.tsx lines 133-134): `x.trim().toLowerCase()`. -/
def normalizeAnswer (s : String) : String :=
  jsToLower (jsTrim s)

/- Section: Speech-input transcript cleaning (QuizScreen.tsx `startListening`)

`recognition.onresult` (lines 96-109) concatenates the transcripts of all
results of the capture session into `finalTranscript` and then computes
`cleanedInput = finalTranscript.replace(/[^a-zA-Z]/g, '').toLowerCase()`.
`Char.isAlpha` is exactly the `[a-zA-Z]` test. -/

/-- The cleaning applied to the concatenated transcript before it is stored
in the input buffer. -/
def cleanedInput (finalTranscript : String) : String :=
  jsToLower (String.mk (finalTranscript.data.filter Char.isAlpha))

/- Section: Session summary reducer (QuizScreen.tsx `ResultScreen`, lines 400-406)

```
const correctCount = results.filter(r => r.isCorrect).length;
const total = results.length;
const percentage = Math.round((correctCount / total) * 100);
const isPerfect = percentage === 100;
const isBad = percentage < 80;
```
For `total = 0` the division `0 / 0` is NaN, `Math.round(NaN)` is NaN, and
`NaN === 100` / `NaN < 80` are both false; the NaN case is modelled by an
explicit constructor. -/

/-- A JavaScript number that is either NaN or (here) an integer. -/
inductive JsPercent where
  | nan : JsPercent
  | val : ℤ → JsPercent
deriving DecidableEq

/-- Model of `Math.round` on an exact (non-NaN) value: round half toward +∞. -/
def jsRound (q : ℚ) : ℤ := Rat.floor (q + 1 / 2)

def correctCount (results : List QuizResult) : Nat :=
  (results.filter (fun r => r.isCorrect)).length

def totalCount (results : List QuizResult) : Nat :=
  results.length

/-- The percentage `Math.round((correctCount / total) * 100)`, NaN when `total = 0`. -/
def percentage (results : List QuizResult) : JsPercent :=
  if totalCount results = 0 then JsPercent.nan
  else JsPercent.val (jsRound ((correctCount results : ℚ) / (totalCount results : ℚ) * 100))

/-- Whether `percentage === 100` (false on NaN). -/
def isPerfect (results : List QuizResult) : Bool :=
  match percentage results with
  | JsPercent.nan => false
  | JsPercent.val z => z == 100

/-- Whether `percentage < 80` (false on NaN). -/
def isBad (results : List QuizResult) : Bool :=
  match percentage results with
  | JsPercent.nan => false
  | JsPercent.val z => decide (z < 80)

inductive Outcome where
  | Perfect : Outcome
  | Poor : Outcome
  | Normal : Outcome
deriving DecidableEq

/-- The outcome class the result screen renders: the `isPerfect` branch,
else the `isBad` branch, else the neutral one. -/
def outcomeClass (results : List QuizResult) : Outcome :=
  if isPerfect results then Outcome.Perfect
  else if isBad results then Outcome.Poor
  else Outcome.Normal

/- Section: Speech output adapter (src/utils/speech.ts `speakWord`) -/

/-- A `SpeechSynthesisVoice` as far as `speakWord` reads it. -/
structure SpeechVoice where
  voiceURI : String
  name : String
  lang : String
deriving DecidableEq

/-- The `VoiceGender` type from src/types.ts. -/
inductive VoiceGender where
  | male : VoiceGender
  | female : VoiceGender
deriving DecidableEq

/-- The male keyword table of speech.ts (lines 52-60). -/
def maleKeywords : List String :=
  ["male",
   "david", "daniel", "mark", "guy", "ryan", "andrew", "christopher", "eric",
   "george", "roger", "sean", "brian", "matthew",
   "alex", "fred", "tom", "junior", "ralph", "albert", "bruce",
   "james"]

/-- The female keyword table of speech.ts (line 71). -/
def femaleKeywords : List String :=
  ["female", "zira", "samantha", "google us english", "google uk english female",
   "victoria", "karen", "moira", "fiona"]

/-- The utterance configuration `speakWord` hands to
`window.speechSynthesis.speak` (text, lang, rate, pitch, chosen voice). -/
structure Utterance where
  text : String
  lang : String
  rate : ℚ
  pitch : ℚ
  voice : Option SpeechVoice
deriving DecidableEq

/-- Step 1 of `speakWord` (lines 43-46): look the explicit
`specificVoiceURI` up in the catalog; a hit sets `foundMaleVoice`. -/
def uriMatched (voices : List SpeechVoice) (specificVoiceURI : Option String) : Bool :=
  (match specificVoiceURI with
   | some uri => voices.find? (fun (v : SpeechVoice) => v.voiceURI == uri)
   | none => (none : Option SpeechVoice)).isSome

/-- Step 2 of `speakWord` for `gender === 'male'` (lines 62-68): the first
voice whose lang contains `"en"` and whose lowercased name contains a male
keyword; a hit sets `foundMaleVoice`. -/
def maleKeywordMatched (voices : List SpeechVoice) : Bool :=
  (voices.find? (fun v =>
    strIncludes v.lang "en" &&
    maleKeywords.any (fun keyword => strIncludes (jsToLower v.name) keyword))).isSome

/-- The function `speakWord(text, gender, specificVoiceURI, speechRate)` from
src/utils/speech.ts, as the pure function from the voice-catalog snapshot to
the utterance it speaks.  The sequential voice search of the source is
embedded stage by stage; `foundMaleVoice` recomputes the stage-1/stage-2
searches instead of threading the source's mutable flag, with the same
value on every path. -/
def speakWord (voices : List SpeechVoice) (text : String) (gender : VoiceGender)
    (specificVoiceURI : Option String) (speechRate : ℚ) : Utterance :=
  let fromURI : Option SpeechVoice :=
    match specificVoiceURI with
    | some uri => voices.find? (fun v => v.voiceURI == uri)
    | none => none
  let heuristic : Option SpeechVoice :=
    match fromURI with
    | some v => some v
    | none =>
      match gender with
      | VoiceGender.male =>
        voices.find? (fun v =>
          strIncludes v.lang "en" &&
          maleKeywords.any (fun keyword => strIncludes (jsToLower v.name) keyword))
      | VoiceGender.female =>
        voices.find? (fun v =>
          strIncludes v.lang "en" &&
          femaleKeywords.any (fun keyword => strIncludes (jsToLower v.name) keyword))
  let foundMaleVoice : Bool :=
    match fromURI with
    | some _ => true
    | none =>
      match gender with
      | VoiceGender.male => maleKeywordMatched voices
      | VoiceGender.female => false
  let afterUS : Option SpeechVoice :=
    match heuristic with
    | some v => some v
    | none => voices.find? (fun v => v.lang == "en-US")
  let finalVoice : Option SpeechVoice :=
    match afterUS with
    | some v => some v
    | none => voices.find? (fun v => strIncludes v.lang "en")
  { text := text
    lang := "en-US"
    rate := speechRate
    pitch := if gender = VoiceGender.male ∧ foundMaleVoice = false then 7 / 10 else 1
    voice := finalVoice }

/- Section: Session-start shuffle (QuizScreen.tsx line 27)

`[...words].sort(() => Math.random() - 0.5)` sorts with a comparator that
ignores its arguments and answers randomly.  The host sort order is
implementation-defined for such a comparator, but any comparison sort only
rearranges the array.  The sort is embedded as an insertion sort whose
comparisons are answered by an arbitrary oracle `f : Nat → Bool` (the
successive `Math.random() - 0.5 < 0` draws), so every statement proved for
all `f` covers every possible behavior of the random comparator. -/

/-- Insert `x` into `l`, consulting the comparison oracle at counter `k`;
returns the advanced counter and the new list. -/
def insertOracle {α : Type} (f : Nat → Bool) : Nat → α → List α → Nat × List α
  | k, x, [] => (k, [x])
  | k, x, y :: ys =>
    if f k then (k + 1, x :: y :: ys)
    else
      let p := insertOracle f (k + 1) x ys
      (p.1, y :: p.2)

/-- Insertion sort driven by the comparison oracle. -/
def sortOracle {α : Type} (f : Nat → Bool) : Nat → List α → Nat × List α
  | k, [] => (k, [])
  | k, x :: xs =>
    let p := sortOracle f k xs
    insertOracle f p.1 x p.2

/-- The `shuffledWords` value: the randomly sorted copy of the input list taken once
at session start. -/
def shuffledWords (f : Nat → Bool) (words : List VocabWord) : List VocabWord :=
  (sortOracle f 0 words).2

/- Section: Quiz session state machine (QuizScreen.tsx lines 26-166)

The component state (`currentIndex`, `userInput`, `results`, `feedback`,
`isListening`) together with the pending feedback-dwell timer scheduled by
`handleSubmit`, whether the quiz screen is still mounted, and the payload
`onFinish` was invoked with (if ever).  The timer closure captures the
index and the appended result list at submission time, exactly as the
`setTimeout` callback in the source captures `currentIndex` and
`[...results, newResult]`. -/

inductive FeedbackState where
  | idle : FeedbackState
  | correct : FeedbackState
  | wrong : FeedbackState
deriving DecidableEq

structure MachineState where
  words : List VocabWord
  currentIndex : Nat
  userInput : String
  results : List QuizResult
  feedback : FeedbackState
  isListening : Bool
  pendingTimer : Option (Nat × List QuizResult)
  mounted : Bool
  finishedWith : Option (List QuizResult)
deriving DecidableEq

/-- The discrete events the component reacts to. -/
inductive Ev where
  | typeInput : String → Ev
  | dictate : List String → Ev
  | startListen : Ev
  | stopListen : Ev
  | submit : Ev
  | timerFire : Ev
  | exit : Ev
deriving DecidableEq

/-- Session start: shuffle the words once, position 0, empty buffer and
results, `Idle` feedback, mounted, no timer, not finished. -/
def initState (f : Nat → Bool) (words : List VocabWord) : MachineState :=
  { words := shuffledWords f words
    currentIndex := 0
    userInput := ""
    results := []
    feedback := FeedbackState.idle
    isListening := false
    pendingTimer := none
    mounted := true
    finishedWith := none }

/-- The current word, `shuffledWords[currentIndex]` (line 40). -/
def currentWord (s : MachineState) : Option VocabWord :=
  s.words.get? s.currentIndex

/-- One event step.
  - `typeInput`: the text field's `onChange`; the field is disabled unless
    `feedback === 'idle'` and not listening (line 323).
  - `dictate`: `recognition.onresult` with the fragments of the capture
    session so far; only fires while a capture session is live.
  - `startListen` / `stopListen`: `toggleListening` / `stopListening`.
  - `submit`: `handleSubmit` (lines 127-166) — early return unless
    `feedback === 'idle'`, stop the mic, compare the normalized input with
    the normalized target, record the result, set the feedback and schedule
    the dwell timer.
  - `timerFire`: the `setTimeout` callback — advance (its `setState`s are
    no-ops once unmounted) or, on the last item, call `onFinish` with the
    captured result list; the source never clears this timer, so it fires
    even after `exit`.
  - `exit`: the 離開 button (line 251) — unmounts the quiz screen (the
    cleanup effect stops the mic) without cancelling the pending timer. -/
def step (s : MachineState) (e : Ev) : MachineState :=
  match e with
  | Ev.typeInput t =>
    if s.mounted = true ∧ s.feedback = FeedbackState.idle ∧ s.isListening = false then
      { s with userInput := t }
    else s
  | Ev.dictate frags =>
    if s.mounted = true ∧ s.isListening = true then
      { s with userInput := cleanedInput (String.join frags) }
    else s
  | Ev.startListen =>
    if s.mounted = true then { s with isListening := true } else s
  | Ev.stopListen =>
    { s with isListening := false }
  | Ev.submit =>
    if s.mounted = false then s
    else if s.feedback ≠ FeedbackState.idle then s
    else
      match currentWord s with
      | none => s
      | some w =>
        let isCorrect := normalizeAnswer s.userInput == normalizeAnswer w.english
        let newResult : QuizResult :=
          { word := w, userAnswer := s.userInput, isCorrect := isCorrect }
        { s with
            isListening := false
            feedback := if isCorrect then FeedbackState.correct else FeedbackState.wrong
            results := s.results ++ [newResult]
            pendingTimer := some (s.currentIndex, s.results ++ [newResult]) }
  | Ev.timerFire =>
    match s.pendingTimer with
    | none => s
    | some (idx, rs) =>
      if idx < s.words.length - 1 then
        if s.mounted = true then
          { s with
              feedback := FeedbackState.idle
              userInput := ""
              currentIndex := s.currentIndex + 1
              isListening := false
              pendingTimer := none }
        else { s with pendingTimer := none }
      else
        { s with pendingTimer := none, mounted := false, finishedWith := some rs }
  | Ev.exit =>
    if s.mounted = true then { s with mounted := false, isListening := false } else s

/-- Run a list of events. -/
def runEvents (s : MachineState) (es : List Ev) : MachineState :=
  es.foldl step s

/-- The states a session can be in: a freshly started session on a
non-empty word list, closed under event steps. -/
inductive Reachable : MachineState → Prop where
  | init (f : Nat → Bool) (words : List VocabWord) (h : words ≠ []) :
      Reachable (initState f words)
  | next (s : MachineState) (e : Ev) : Reachable s → Reachable (step s e)

/- Section: Start guard (SelectionScreen `handleStart`, QuizScreen.tsx lines 726-733) -/

/-- The `handleStart` click handler: filter the available words down to the checked ones and
start the quiz only when that list is non-empty (`some` = `onStartQuiz`
invoked with these words, `none` = nothing happens). -/
def handleStart (availableWords : List VocabWord) (checkedWords : List String) :
    Option (List VocabWord) :=
  let wordsToQuiz := availableWords.filter (fun w => checkedWords.contains w.id)
  if wordsToQuiz.length > 0 then some wordsToQuiz else none

/- Section: Concrete fixtures -/

def appleWord : VocabWord :=
  { id := "1", team := "T", lesson := "L1", english := "apple", chinese := "pingguo" }

def catWord : VocabWord :=
  { id := "1", team := "T", lesson := "L1", english := "cat", chinese := "mao" }

def dogWord : VocabWord :=
  { id := "2", team := "T", lesson := "L1", english := "dog", chinese := "gou" }

/- Section: Supporting lemmas -/

theorem string_data_append (a b : String) : (a ++ b).data = a.data ++ b.data := rfl

theorem string_eq_of_data_eq {a b : String} (h : a.data = b.data) : a = b := by
  cases a
  cases b
  exact congrArg String.mk h

theorem foldl_append_data (l : List String) :
    ∀ acc : String, (l.foldl (fun r s => r ++ s) acc).data =
      acc.data ++ (l.map String.data).flatten := by
  induction l with
  | nil => intro acc; simp
  | cons h t ih =>
    intro acc
    simp [List.foldl_cons, ih, string_data_append]

theorem string_join_data (l : List String) :
    (String.join l).data = (l.map String.data).flatten := by
  simp [String.join, foldl_append_data]

/-- Filtering to letters then lowercasing distributes over list
concatenation. -/
theorem clean_chars_join (ll : List (List Char)) :
    ((ll.flatten.filter Char.isAlpha).map Char.toLower) =
      (ll.map (fun cs => (cs.filter Char.isAlpha).map Char.toLower)).flatten := by
  induction ll with
  | nil => simp
  | cons h t ih =>
    simp only [List.flatten_cons, List.filter_append, List.map_append, List.map_cons, ih]

/- Section: Claim theorems -/

/-- Claim C8: for every sequence of transcript fragments emitted during one
capture session, the exposed input buffer — the cleaning of the
concatenation of all fragments seen so far — equals the concatenation of
the individually cleaned fragments (every non-alphabetic character removed,
the rest lowercased); in particular the fragments `["A ", "P P", "LE!"]`
yield `"apple"`. -/
theorem transcript_clean_concat :
    (∀ frags : List String,
      cleanedInput (String.join frags) = String.join (frags.map cleanedInput))
    ∧ cleanedInput (String.join ["A ", "P P", "LE!"]) = "apple" := by
  constructor
  · intro frags
    apply string_eq_of_data_eq
    show ((String.join frags).data.filter Char.isAlpha).map Char.toLower =
      (String.join (frags.map cleanedInput)).data
    rw [string_join_data, string_join_data, clean_chars_join, List.map_map, List.map_map]
    rfl
  · rfl

/-- Claim C10: the summary reducer never checks `total > 0`: on an empty result
list the percentage is the NaN produced by `0 / 0`, the comparisons
`NaN === 100` and `NaN < 80` are both false, and the empty session is
classified as the Normal outcome instead of being rejected. -/
theorem empty_results_nan_normal :
    percentage [] = JsPercent.nan
    ∧ isPerfect [] = false
    ∧ isBad [] = false
    ∧ outcomeClass [] = Outcome.Normal := by
  refine ⟨rfl, rfl, rfl, rfl⟩

/-- Claim C7 counterexample: a call with gender `'male'` and an explicit
`specificVoiceURI` that matches a catalog voice whose name contains no male
keyword — no voice is found by the male keyword match, yet the pitch stays
at the default 1 instead of being lowered to 0.7, because the explicit URI
hit also sets `foundMaleVoice`. -/
theorem pitch_kept_despite_no_keyword_match :
    maleKeywordMatched [{ voiceURI := "v1", name := "Zira", lang := "en-US" }] = false
    ∧ (speakWord [{ voiceURI := "v1", name := "Zira", lang := "en-US" }]
        "apple" VoiceGender.male (some "v1") (4 / 5)).pitch = 1
    ∧ ((7 : ℚ) / 10 ≠ 1) := by
  refine ⟨rfl, rfl, by norm_num⟩

/-- The pitch `speakWord` applies for gender `'male'`, as a function of the
two searches that set `foundMaleVoice`. -/
theorem speakWord_male_pitch (voices : List SpeechVoice) (text : String)
    (uri : Option String) (rate : ℚ) :
    (speakWord voices text VoiceGender.male uri rate).pitch =
      if uriMatched voices uri || maleKeywordMatched voices then 1 else 7 / 10 := by
  cases uri with
  | none =>
    cases hkw : maleKeywordMatched voices <;>
      simp [speakWord, uriMatched, hkw]
  | some u =>
    cases hf : voices.find? (fun v => v.voiceURI == u) with
    | none =>
      cases hkw : maleKeywordMatched voices <;>
        simp [speakWord, uriMatched, hf, hkw]
    | some v =>
      simp [speakWord, uriMatched, hf]

/-- Claim C7, amended: for every call with gender `'male'`, the pitch is lowered
to the fixed 0.7 exactly when the voice search found no voice either by the
explicit-URI lookup or by the male keyword match (the regional and
language-family fallbacks do not count); in every other case — a keyword
hit or an explicit URI hit — the pitch stays at the default 1. -/
theorem pitch_lowered_iff_no_uri_or_keyword_match :
    ∀ (voices : List SpeechVoice) (text : String) (uri : Option String) (rate : ℚ),
      ((speakWord voices text VoiceGender.male uri rate).pitch = 7 / 10 ↔
        (uriMatched voices uri = false ∧ maleKeywordMatched voices = false))
      ∧ ((speakWord voices text VoiceGender.male uri rate).pitch = 1 ↔
        ¬(uriMatched voices uri = false ∧ maleKeywordMatched voices = false)) := by
  intro voices text uri rate
  rw [speakWord_male_pitch]
  cases hu : uriMatched voices uri <;> cases hkw : maleKeywordMatched voices <;>
    norm_num

/-- Witness for the amended C7 statement at a concrete (empty) catalog. -/
theorem pitch_lowered_iff_witness :
    ((speakWord [] "hello" VoiceGender.male none (4 / 5)).pitch = 7 / 10 ↔
      (uriMatched [] none = false ∧ maleKeywordMatched [] = false))
    ∧ ((speakWord [] "hello" VoiceGender.male none (4 / 5)).pitch = 1 ↔
      ¬(uriMatched [] none = false ∧ maleKeywordMatched [] = false)) :=
  pitch_lowered_iff_no_uri_or_keyword_match [] "hello" none (4 / 5)

/- Section: The shuffle is a permutation (C4) -/

theorem insertOracle_perm {α : Type} (f : Nat → Bool) :
    ∀ (l : List α) (k : Nat) (x : α), (insertOracle f k x l).2.Perm (x :: l) := by
  intro l
  induction l with
  | nil => intro k x; simp [insertOracle]
  | cons y ys ih =>
    intro k x
    cases h : f k with
    | true => simp [insertOracle, h]
    | false =>
      simp only [insertOracle, h, Bool.false_eq_true, if_false]
      exact List.Perm.trans ((ih (k + 1) x).cons y) (List.Perm.swap x y ys)

theorem sortOracle_perm {α : Type} (f : Nat → Bool) :
    ∀ (l : List α) (k : Nat), (sortOracle f k l).2.Perm l := by
  intro l
  induction l with
  | nil => intro k; simp [sortOracle]
  | cons x xs ih =>
    intro k
    exact List.Perm.trans (insertOracle_perm f (sortOracle f k xs).2 (sortOracle f k xs).1 x)
      ((ih k).cons x)

/-- Claim C4: for every non-empty input list of vocabulary items (and every
behavior of the random comparator), session start produces a quiz sequence
that is a permutation of the input: the same multiset of item ids, with
length preserved. -/
theorem shuffle_preserves_multiset :
    ∀ (f : Nat → Bool) (words : List VocabWord), words ≠ [] →
      (((shuffledWords f words).map VocabWord.id : List String) : Multiset String) =
        ((words.map VocabWord.id : List String) : Multiset String)
      ∧ (shuffledWords f words).length = words.length := by
  intro f words _
  have hp : (shuffledWords f words).Perm words := sortOracle_perm f words 0
  exact ⟨Multiset.coe_eq_coe.mpr (hp.map VocabWord.id), hp.length_eq⟩

/-- Witness for C4 at a concrete input. -/
theorem shuffle_preserves_multiset_witness :
    (((shuffledWords (fun _ => true) [appleWord]).map VocabWord.id : List String) :
        Multiset String) =
      (([appleWord].map VocabWord.id : List String) : Multiset String)
    ∧ (shuffledWords (fun _ => true) [appleWord]).length = [appleWord].length :=
  shuffle_preserves_multiset (fun _ => true) [appleWord] (by simp)

/-- The end-to-end scenario of the spec: `"cet"` submitted against `"cat"`,
then `"dog"` against `"dog"` — one correct out of two. -/
def cetDogResults : List QuizResult :=
  [{ word := catWord, userAnswer := "cet", isCorrect := false },
   { word := dogWord, userAnswer := "dog", isCorrect := true }]

theorem ratFloor_eq_intFloor (q : ℚ) : Rat.floor q = ⌊q⌋ := by
  rw [Rat.floor_def', Rat.floor_def]

theorem jsRound_half_example : jsRound ((1 : ℚ) / 2 * 100) = 50 := by
  rw [jsRound, ratFloor_eq_intFloor, Int.floor_eq_iff]
  norm_num

theorem percentage_cetDog : percentage cetDogResults = JsPercent.val 50 := by
  have h1 : correctCount cetDogResults = 1 := rfl
  have h2 : totalCount cetDogResults = 2 := rfl
  have ht : totalCount cetDogResults ≠ 0 := by rw [h2]; norm_num
  rw [percentage, if_neg ht, h1, h2]
  rw [show ((1 : ℕ) : ℚ) / ((2 : ℕ) : ℚ) * 100 = (1 : ℚ) / 2 * 100 by norm_num]
  rw [jsRound_half_example]

/-- Claim C2: for every non-empty results list the summary computes
`percentage = round(100 * correctCount / total)`, and the outcome class is
Perfect exactly when the percentage is 100, Poor exactly when it is below
80, and Normal otherwise; in particular one correct out of two gives
percentage 50 and class Poor. -/
theorem summary_percentage_outcome :
    (∀ rs : List QuizResult, rs ≠ [] →
      percentage rs =
        JsPercent.val (jsRound ((correctCount rs : ℚ) / (totalCount rs : ℚ) * 100))
      ∧ (outcomeClass rs = Outcome.Perfect ↔
          jsRound ((correctCount rs : ℚ) / (totalCount rs : ℚ) * 100) = 100)
      ∧ (outcomeClass rs = Outcome.Poor ↔
          jsRound ((correctCount rs : ℚ) / (totalCount rs : ℚ) * 100) < 80)
      ∧ (outcomeClass rs = Outcome.Normal ↔
          (jsRound ((correctCount rs : ℚ) / (totalCount rs : ℚ) * 100) ≠ 100 ∧
           ¬ jsRound ((correctCount rs : ℚ) / (totalCount rs : ℚ) * 100) < 80)))
    ∧ percentage cetDogResults = JsPercent.val 50
    ∧ outcomeClass cetDogResults = Outcome.Poor := by
  refine ⟨?_, percentage_cetDog, ?_⟩
  · intro rs h
    have ht : totalCount rs ≠ 0 := by
      simpa [totalCount, List.length_eq_zero] using h
    have hp : percentage rs =
        JsPercent.val (jsRound ((correctCount rs : ℚ) / (totalCount rs : ℚ) * 100)) := by
      rw [percentage, if_neg ht]
    have hPerf : isPerfect rs =
        (jsRound ((correctCount rs : ℚ) / (totalCount rs : ℚ) * 100) == 100) := by
      simp only [isPerfect, hp]
    have hBad : isBad rs =
        decide (jsRound ((correctCount rs : ℚ) / (totalCount rs : ℚ) * 100) < 80) := by
      simp only [isBad, hp]
    refine ⟨hp, ?_, ?_, ?_⟩ <;>
    · simp only [outcomeClass, hPerf, hBad]
      by_cases h1 : jsRound ((correctCount rs : ℚ) / (totalCount rs : ℚ) * 100) = 100 <;>
        by_cases h2 : jsRound ((correctCount rs : ℚ) / (totalCount rs : ℚ) * 100) < 80 <;>
          simp [h1, h2]
  · simp [outcomeClass, isPerfect, isBad, percentage_cetDog]

/-- Witness for C2 at the concrete one-correct-of-two list. -/
theorem summary_percentage_outcome_witness :
    percentage cetDogResults =
      JsPercent.val
        (jsRound ((correctCount cetDogResults : ℚ) / (totalCount cetDogResults : ℚ) * 100)) :=
  (summary_percentage_outcome.1 cetDogResults (by simp [cetDogResults])).1

/- Section: State-machine invariant (C3) -/

/-- The session invariant: while feedback is `Idle` no dwell timer is
pending and the result list is as long as the position; outside `Idle` one
result has just been appended; a pending timer always carries the current
position and the current result list. -/
def Inv (s : MachineState) : Prop :=
  (s.feedback = FeedbackState.idle →
    s.pendingTimer = none ∧ s.results.length = s.currentIndex)
  ∧ (s.feedback ≠ FeedbackState.idle → s.results.length = s.currentIndex + 1)
  ∧ (∀ idx rs, s.pendingTimer = some (idx, rs) → idx = s.currentIndex ∧ rs = s.results)

theorem inv_step (s : MachineState) (e : Ev) (h : Inv s) : Inv (step s e) := by
  obtain ⟨h1, h2, h3⟩ := h
  cases e with
  | typeInput t =>
    simp only [step]
    split
    · exact ⟨h1, h2, h3⟩
    · exact ⟨h1, h2, h3⟩
  | dictate frags =>
    simp only [step]
    split
    · exact ⟨h1, h2, h3⟩
    · exact ⟨h1, h2, h3⟩
  | startListen =>
    simp only [step]
    split
    · exact ⟨h1, h2, h3⟩
    · exact ⟨h1, h2, h3⟩
  | stopListen =>
    exact ⟨h1, h2, h3⟩
  | exit =>
    simp only [step]
    split
    · exact ⟨h1, h2, h3⟩
    · exact ⟨h1, h2, h3⟩
  | submit =>
    simp only [step]
    by_cases hm : s.mounted = false
    · simp only [if_pos hm]
      exact ⟨h1, h2, h3⟩
    · simp only [if_neg hm]
      by_cases hf : s.feedback ≠ FeedbackState.idle
      · simp only [if_pos hf]
        exact ⟨h1, h2, h3⟩
      · simp only [if_neg hf]
        push_neg at hf
        obtain ⟨hpt, hlen⟩ := h1 hf
        cases hw : currentWord s with
        | none =>
          simp only [hw]
          exact ⟨h1, h2, h3⟩
        | some w =>
          simp only [hw]
          cases hc : (normalizeAnswer s.userInput == normalizeAnswer w.english) <;>
          · refine ⟨?_, ?_, ?_⟩
            · intro hfi
              simp at hfi
            · intro _
              simp [hlen]
            · intro idx rs hp
              simp only [Option.some.injEq, Prod.mk.injEq] at hp
              exact ⟨hp.1.symm, hp.2.symm⟩
  | timerFire =>
    simp only [step]
    cases hp : s.pendingTimer with
    | none =>
      exact ⟨h1, h2, h3⟩
    | some pr =>
      obtain ⟨idx, rs⟩ := pr
      obtain ⟨hidx, hrs⟩ := h3 idx rs hp
      have hfb : s.feedback ≠ FeedbackState.idle := by
        intro hfi
        obtain ⟨hpn, _⟩ := h1 hfi
        rw [hp] at hpn
        exact Option.noConfusion hpn
      have hlen := h2 hfb
      simp only [hp]
      by_cases hlt : idx < s.words.length - 1
      · simp only [if_pos hlt]
        by_cases hm : s.mounted = true
        · simp only [if_pos hm]
          refine ⟨?_, ?_, ?_⟩
          · intro _
            exact ⟨rfl, hlen⟩
          · intro hne
            exact absurd rfl hne
          · intro i r hcontra
            exact Option.noConfusion hcontra
        · simp only [if_neg hm]
          refine ⟨?_, fun _ => hlen, ?_⟩
          · intro hfi
            exact absurd hfi hfb
          · intro i r hcontra
            exact Option.noConfusion hcontra
      · simp only [if_neg hlt]
        exact ⟨fun hfi => absurd hfi hfb, fun _ => hlen,
          fun i r hcontra => Option.noConfusion hcontra⟩

theorem reachable_inv : ∀ s : MachineState, Reachable s → Inv s := by
  intro s h
  induction h with
  | init f words hw =>
    exact ⟨fun _ => ⟨rfl, rfl⟩, fun hne => absurd rfl hne,
      fun i r hc => Option.noConfusion hc⟩
  | next s e _ ih =>
    exact inv_step s e ih

/-- Claim C3: in every reachable session state before `Finished`, whenever the
feedback is `Idle` the result list is exactly as long as the current
position, and from the moment a submission is recorded until the
feedback-to-next transition completes (feedback not `Idle`) it is exactly
one longer. -/
theorem results_length_matches_position :
    ∀ s : MachineState, Reachable s → s.finishedWith = none →
      (s.feedback = FeedbackState.idle → s.results.length = s.currentIndex)
      ∧ (s.feedback ≠ FeedbackState.idle → s.results.length = s.currentIndex + 1) := by
  intro s hr _
  obtain ⟨h1, h2, _⟩ := reachable_inv s hr
  exact ⟨fun hf => (h1 hf).2, h2⟩

/-- Witness for C3 at a freshly started one-word session. -/
theorem results_length_matches_position_witness :
    ((initState (fun _ => true) [appleWord]).feedback = FeedbackState.idle →
      (initState (fun _ => true) [appleWord]).results.length =
        (initState (fun _ => true) [appleWord]).currentIndex)
    ∧ ((initState (fun _ => true) [appleWord]).feedback ≠ FeedbackState.idle →
      (initState (fun _ => true) [appleWord]).results.length =
        (initState (fun _ => true) [appleWord]).currentIndex + 1) :=
  results_length_matches_position (initState (fun _ => true) [appleWord])
    (Reachable.init (fun _ => true) [appleWord] (by simp)) rfl

/- Section: Submission (C1, C5) -/

/-- A session on `[appleWord]` whose input buffer holds `" Apple "`. -/
def appleAttempt : MachineState :=
  { initState (fun _ => true) [appleWord] with userInput := " Apple " }

/-- Claim C1: every submission in the `Idle` state records exactly one attempt,
whose `isCorrect` flag is the boolean equality of the trimmed-and-lowercased
input buffer with the trimmed-and-lowercased source text (exact string
equality, no fuzzy matching); in particular submitting `" Apple "` against
source text `"apple"` records `isCorrect = true` and submitting `"appel"`
records `isCorrect = false`. -/
theorem submit_isCorrect_exact_equality :
    (∀ (s : MachineState) (w : VocabWord),
      s.mounted = true → s.feedback = FeedbackState.idle → currentWord s = some w →
      (step s Ev.submit).results = s.results ++
        [{ word := w, userAnswer := s.userInput,
           isCorrect := normalizeAnswer s.userInput == normalizeAnswer w.english }])
    ∧ (step appleAttempt Ev.submit).results.map QuizResult.isCorrect = [true]
    ∧ (step { initState (fun _ => true) [appleWord] with userInput := "appel" }
        Ev.submit).results.map QuizResult.isCorrect = [false] := by
  refine ⟨?_, by decide, by decide⟩
  intro s w hm hf hw
  simp [step, hm, hf, hw]

/-- Witness for C1: the `" Apple "` submission, through the theorem. -/
theorem submit_isCorrect_exact_equality_witness :
    (step appleAttempt Ev.submit).results = appleAttempt.results ++
      [{ word := appleWord, userAnswer := appleAttempt.userInput,
         isCorrect := normalizeAnswer appleAttempt.userInput ==
           normalizeAnswer appleWord.english }] :=
  submit_isCorrect_exact_equality.1 appleAttempt appleWord rfl rfl rfl

theorem submit_noop_of_feedback (s : MachineState)
    (h : s.feedback ≠ FeedbackState.idle) : step s Ev.submit = s := by
  by_cases hm : s.mounted = false
  · simp [step, hm]
  · simp [step, hm, h]

/-- Claim C5: in every session state whose feedback is not `Idle`, submitting any
number of times leaves the whole session state — the result list included —
unchanged. -/
theorem submit_spam_noop :
    ∀ (s : MachineState) (n : Nat), s.feedback ≠ FeedbackState.idle →
      runEvents s (List.replicate n Ev.submit) = s := by
  intro s n h
  induction n with
  | zero => rfl
  | succ k ih =>
    rw [List.replicate_succ]
    show runEvents (step s Ev.submit) (List.replicate k Ev.submit) = s
    rw [submit_noop_of_feedback s h]
    exact ih

/-- Witness for C5: three submissions against a state showing feedback. -/
theorem submit_spam_noop_witness :
    runEvents { initState (fun _ => true) [appleWord] with feedback := FeedbackState.correct }
        (List.replicate 3 Ev.submit) =
      { initState (fun _ => true) [appleWord] with feedback := FeedbackState.correct } :=
  submit_spam_noop _ 3 (by decide)

/- Section: Exit versus the pending dwell timer (C6) -/

/-- Claim C6 is false of the code: `handleSubmit`'s 1.5 s `setTimeout` is never
cleared, so in a single-item session the trace `type "apple"`, `submit`,
`exit` (during the dwell), `timer fires` still invokes `onFinish` with the
full result list although the user exited before `Finished`: a summary is
produced after an exit.  This theorem evaluates the machine on that trace. -/
theorem exit_does_not_cancel_last_item_timer :
    (runEvents (initState (fun _ => true) [appleWord])
        [Ev.typeInput "apple", Ev.submit, Ev.exit]).mounted = false
    ∧ (runEvents (initState (fun _ => true) [appleWord])
        [Ev.typeInput "apple", Ev.submit, Ev.exit]).finishedWith = none
    ∧ (runEvents (initState (fun _ => true) [appleWord])
        [Ev.typeInput "apple", Ev.submit, Ev.exit, Ev.timerFire]).finishedWith =
      some [{ word := appleWord, userAnswer := "apple", isCorrect := true }] := by
  refine ⟨by decide, by decide, by decide⟩

/- Section: Start guard (C9) -/

/-- Claim C9: starting with an empty item set is rejected synchronously:
`handleStart` invokes `onStartQuiz` only with a non-empty word list, and
when the checked selection is empty it does nothing, so the quiz screen —
whose sessions start from a non-empty list — is never entered with an empty
input. -/
theorem handleStart_rejects_empty :
    ∀ (availableWords : List VocabWord) (checkedWords : List String),
      ((availableWords.filter (fun w => checkedWords.contains w.id)) = [] →
        handleStart availableWords checkedWords = none)
      ∧ (∀ ws, handleStart availableWords checkedWords = some ws →
          ws ≠ [] ∧ 0 < ws.length) := by
  intro availableWords checkedWords
  constructor
  · intro h
    simp only [handleStart]
    rw [h]
    rfl
  · intro ws h
    by_cases hl : 0 < (availableWords.filter (fun w => checkedWords.contains w.id)).length
    · simp only [handleStart] at h
      rw [if_pos hl] at h
      cases h
      exact ⟨List.length_pos.mp hl, hl⟩
    · simp only [handleStart] at h
      rw [if_neg hl] at h
      exact Option.noConfusion h

/-- Witness for C9: a selection that passes the guard is non-empty. -/
theorem handleStart_rejects_empty_witness :
    [appleWord] ≠ [] ∧ 0 < [appleWord].length :=
  (handleStart_rejects_empty [appleWord] ["1"]).2 [appleWord] rfl

end EWT
